import Mathlib

/-!
Verification of the `group_adjust` repository (src/src/group_adjust.py).

The repository implements one numeric utility, `group_adjust`, with three
backends: `group_adjust_pandas` (the default, `group_adjust` delegates to it),
`group_adjust_polars`, and `group_adjust_numpy`.  All three demean a sequence
of values against a weighted combination of per-group means.

Embedding choices:
* Numbers are modelled as `ℚ` (the claims' tolerances, e.g. `1e-5`, are many
  orders of magnitude above double rounding error, so exact rationals are a
  faithful model of the float64 arithmetic).
* A missing value (pandas/numpy `NaN`, polars `None`) is `Option.none`; the
  "missing in, missing out" float/null propagation of each library is the
  `Option` propagation of `optSub` / `optAdd` below.
* Group labels are `String` (only equality on labels is ever used).
* Python exceptions are the `Except Err` monad; `Err` distinguishes the
  exception classes the backends actually raise.
-/

namespace GroupAdjust

/-- The distinct failure kinds of the three backends.
`weightCount` and `groupLen` are the two explicit `ValueError`s;
`indexErr` models the numpy `IndexError` raised by boolean-mask indexing
`group[valid_mask]` when `len(group) != len(vals)` (the numpy backend has no
explicit group-length check); `attrErr` models the `AttributeError` raised in
the polars backend at `weighted_sum_expr.alias(...)` when `groups == []`
(Python `sum([])` is the int `0`, which has no `.alias`). -/
inductive Err where
  | weightCount
  | groupLen
  | indexErr
  | attrErr
deriving DecidableEq

/-- A raw element of the `vals` argument: a number, an explicit missing-value
marker (`np.NaN`), or a non-numeric object such as a string. -/
inductive RawVal where
  | num (q : ℚ)
  | missing
  | nonNumeric (s : String)
deriving DecidableEq

/-- Models `pd.to_numeric(vals, errors="coerce")` (line 128): numbers pass
through, anything unparseable and the missing marker both become missing. -/
def toNumeric : RawVal → Option ℚ
  | .num q => some q
  | .missing => none
  | .nonNumeric _ => none

/-- The non-missing values at positions of `g` carrying label `lab`
(positions beyond the shorter of the two lists are ignored, as both lists
always have equal length when this is reached). -/
def groupVals (ovals : List (Option ℚ)) (g : List String) (lab : String) : List ℚ :=
  (g.zip ovals).filterMap fun lv => if lv.1 = lab then lv.2 else none

/-- Arithmetic mean of a list of numbers. -/
def pyMean (xs : List ℚ) : ℚ := xs.sum / (xs.length : ℚ)

/-- The group mean used by all three backends: the arithmetic mean of the
non-missing values carrying label `lab` (`groupby(...)["vals"].mean()` in
pandas, `pl.col("vals").mean()` in polars, `np.mean(vals[mask])` restricted to
`valid_mask` in numpy).  A label whose every value is missing has a missing
mean (pandas/polars produce `NaN`/`null` there; numpy never queries it). -/
def groupMean (ovals : List (Option ℚ)) (g : List String) (lab : String) : Option ℚ :=
  let xs := groupVals ovals g lab
  if xs.isEmpty then none else some (pyMean xs)

/-- Missing-propagating subtraction (`df["vals"] - df["weighted_sum"]`). -/
def optSub : Option ℚ → Option ℚ → Option ℚ
  | some a, some b => some (a - b)
  | _, _ => none

/-- Missing-propagating addition (`+=` on float columns with `NaN`,
`+` on polars columns with `null`). -/
def optAdd : Option ℚ → Option ℚ → Option ℚ
  | some a, some b => some (a + b)
  | _, _ => none

/-- One pandas loop body (line 145):
`df["weighted_sum"] += df[group_key].map(means).astype(float) * weights[i]`,
positionwise: look up the mean of this row's label, scale by the weight, add. -/
def accum (ovals : List (Option ℚ)) (ws : List (Option ℚ)) (g : List String)
    (w : ℚ) : List (Option ℚ) :=
  List.zipWith (fun s lab => optAdd s ((groupMean ovals g lab).map (· * w))) ws g

/-- The pandas `for i, group in enumerate(groups)` loop (lines 131-145): for
each group first the length check (line 132, `ValueError` on mismatch), then
the aggregation into `weighted_sum`.  `weights[i]` is consumed in step with
the groups; the top-level check guarantees both lists have equal length, so
the `(_ :: _, [])` branch is unreachable on every call made by `pandasCore`. -/
def pandasLoop (ovals : List (Option ℚ)) :
    List (List String) → List ℚ → List (Option ℚ) → Except Err (List (Option ℚ))
  | [], _, ws => .ok ws
  | g :: gs, w :: wrest, ws =>
    if g.length = ovals.length then pandasLoop ovals gs wrest (accum ovals ws g w)
    else .error .groupLen
  | _ :: _, [], ws => .ok ws

/-- `group_adjust_pandas` after numeric coercion (lines 124-150): the weight
count check, then `weighted_sum` initialised to `0.0`, the group loop, and the
final demeaning `df["vals"] - df["weighted_sum"]`. -/
def pandasCore (ovals : List (Option ℚ)) (groups : List (List String))
    (weights : List ℚ) : Except Err (List (Option ℚ)) :=
  if groups.length = weights.length then
    (pandasLoop ovals groups weights (ovals.map fun _ => some 0)).map
      fun ws => List.zipWith optSub ovals ws
  else .error .weightCount

/-- `group_adjust_pandas` (lines 87-150): coerce `vals` with
`pd.to_numeric(vals, errors="coerce")` and run the core computation. -/
def group_adjust_pandas (vals : List RawVal) (groups : List (List String))
    (weights : List ℚ) : Except Err (List (Option ℚ)) :=
  pandasCore (vals.map toNumeric) groups weights

/-- `group_adjust` (lines 57-84): delegates to the pandas backend. -/
def group_adjust (vals : List RawVal) (groups : List (List String))
    (weights : List ℚ) : Except Err (List (Option ℚ)) :=
  group_adjust_pandas vals groups weights

/-- One numpy loop body (lines 246-256): for every unique label that has at
least one valid (non-missing) value, add `mean * weight` to `adjusted_vals` at
every position carrying that label.  Positionwise: a position whose label has a
defined mean gets `mean * weight` added; a label whose every value is missing
is not in `unique_groups`, so its positions are left unchanged. -/
def numpyAccum (ovals : List (Option ℚ)) (g : List String) (w : ℚ)
    (adj : List ℚ) : List ℚ :=
  List.zipWith (fun a lab =>
    match groupMean ovals g lab with
    | some m => a + m * w
    | none => a) adj g

/-- The numpy `for group, weight in zip(groups, weights)` loop: there is no
explicit length check, but `group[valid_mask]` (line 251) raises `IndexError`
whenever `len(group) != len(vals)`, before any use of the group's means. -/
def numpyLoop (ovals : List (Option ℚ)) :
    List (List String) → List ℚ → List ℚ → Except Err (List ℚ)
  | [], _, adj => .ok adj
  | g :: gs, w :: wrest, adj =>
    if g.length = ovals.length then numpyLoop ovals gs wrest (numpyAccum ovals g w adj)
    else .error .indexErr
  | _ :: _, [], adj => .ok adj

/-- `group_adjust_numpy` (lines 215-258): the weight count check,
`adjusted_vals = np.zeros_like(vals)`, the group loop, and the final
`vals - adjusted_vals` (a missing value minus a float is missing). -/
def group_adjust_numpy (ovals : List (Option ℚ)) (groups : List (List String))
    (weights : List ℚ) : Except Err (List (Option ℚ)) :=
  if groups.length = weights.length then
    (numpyLoop ovals groups weights (ovals.map fun _ => 0)).map
      fun adj => List.zipWith (fun v a => v.map (· - a)) ovals adj
  else .error .weightCount

/-- The polars group-length check loop (lines 191-194): each group's length is
checked (first bad one raises `ValueError`); the `with_columns` that stores the
group column has no other observable effect. -/
def polarsChecks (n : Nat) : List (List String) → Except Err Unit
  | [] => .ok ()
  | g :: gs => if g.length = n then polarsChecks n gs else .error .groupLen

/-- The polars weighted-mean column for one group (lines 197-203): a left join
of the per-label means back onto the frame (order-preserving), multiplied by
the group's weight.  Position `p` gets `mean(label at p) * w`, missing when the
label's mean is null. -/
def wmColumn (ovals : List (Option ℚ)) (g : List String) (w : ℚ) :
    List (Option ℚ) :=
  g.map fun lab => (groupMean ovals g lab).map (· * w)

/-- `group_adjust_polars` (lines 153-212): weight count check, length check
loop, then all weighted-mean columns, then
`weighted_sum = sum([pl.col(f"weighted_mean_{i}") ...])` (Python `sum` starts
from the int `0` and adds the columns left to right, nulls propagating), then
`vals - weighted_sum`.  With zero groups, `sum([])` is the Python int `0` and
`(0).alias("weighted_sum")` raises `AttributeError` (line 207). -/
def group_adjust_polars (ovals : List (Option ℚ)) (groups : List (List String))
    (weights : List ℚ) : Except Err (List (Option ℚ)) :=
  if groups.length = weights.length then
    match polarsChecks ovals.length groups with
    | .error e => .error e
    | .ok _ =>
      if groups.isEmpty then .error .attrErr
      else
        let cols := (groups.zip weights).map fun gw => wmColumn ovals gw.1 gw.2
        let ws := cols.foldl (fun acc col => List.zipWith optAdd acc col)
          (ovals.map fun _ => some 0)
        .ok (List.zipWith optSub ovals ws)
  else .error .weightCount

instance {ε α : Type} [DecidableEq ε] [DecidableEq α] : DecidableEq (Except ε α) := fun a b =>
  match a, b with
  | .ok x, .ok y =>
    if h : x = y then isTrue (by rw [h]) else isFalse (by intro hc; injection hc; contradiction)
  | .error x, .error y =>
    if h : x = y then isTrue (by rw [h]) else isFalse (by intro hc; injection hc; contradiction)
  | .ok _, .error _ => isFalse (by intro h; injection h)
  | .error _, .ok _ => isFalse (by intro h; injection h)

/-- Boolean elementwise tolerance check: same length, every output position
present (non-missing) and within `tol` of the expected number. -/
def closeTo (out : List (Option ℚ)) (expected : List ℚ) (tol : ℚ) : Bool :=
  out.length == expected.length &&
  (out.zip expected).all fun pe =>
    match pe.1 with
    | some a => decide (|a - pe.2| < tol)
    | none => false

/-- Scenario A values `[1, 2, 3, 8, 5]`. -/
def scenarioAVals : List RawVal :=
  [RawVal.num 1, RawVal.num 2, RawVal.num 3, RawVal.num 8, RawVal.num 5]

/-- Scenario A partitions: country, state, city. -/
def scenarioAGroups : List (List String) :=
  [["USA", "USA", "USA", "USA", "USA"],
   ["MA", "MA", "MA", "RI", "RI"],
   ["WEYMOUTH", "BOSTON", "BOSTON", "PROVIDENCE", "PROVIDENCE"]]

/-- Scenario A weights `[0.15, 0.35, 0.5]`. -/
def scenarioAWeights : List ℚ := [15/100, 35/100, 50/100]

/-- C1: on scenario A (`values=[1,2,3,8,5]`, country/state/city partitions,
weights `[0.15,0.35,0.5]`), `group_adjust` succeeds and returns a sequence
elementwise within `1e-5` of `[-0.770, -0.520, 0.480, 1.905, -1.095]`. -/
theorem scenarioA_output :
    ∃ out, group_adjust scenarioAVals scenarioAGroups scenarioAWeights = .ok out ∧
      closeTo out [-770/1000, -520/1000, 480/1000, 1905/1000, -1095/1000]
        (1/100000) = true :=
  ⟨[some (-77/100), some (-13/25), some (12/25), some (381/200), some (-219/200)], by
    refine ⟨?_, ?_⟩
    · norm_num +decide [group_adjust, group_adjust_pandas, pandasCore, pandasLoop,
        accum, groupMean, pyMean, groupVals, toNumeric, optAdd, optSub, scenarioAVals,
        scenarioAGroups, scenarioAWeights, List.filterMap_cons, Except.map]
    · norm_num +decide [closeTo]⟩

/-! ### Check-free versions of the backend loops

`pandasFold` and `numpyFold` are the aggregation loops with the length checks
stripped; on inputs where every check passes, the checked loops return
`.ok` of these folds (proved below). -/

/-- The pandas aggregation loop without the length checks. -/
def pandasFold (ovals : List (Option ℚ)) :
    List (List String) → List ℚ → List (Option ℚ) → List (Option ℚ)
  | [], _, ws => ws
  | g :: gs, w :: wrest, ws => pandasFold ovals gs wrest (accum ovals ws g w)
  | _ :: _, [], ws => ws

/-- The numpy aggregation loop without the implicit length failure. -/
def numpyFold (ovals : List (Option ℚ)) :
    List (List String) → List ℚ → List ℚ → List ℚ
  | [], _, adj => adj
  | g :: gs, w :: wrest, adj => numpyFold ovals gs wrest (numpyAccum ovals g w adj)
  | _ :: _, [], adj => adj

/-! ### Indexing and length helper lemmas -/

theorem zipWith_getElem? (f : α → β → γ) :
    ∀ (as : List α) (bs : List β) (i : Nat),
      (List.zipWith f as bs)[i]? =
        Option.bind as[i]? fun a => Option.map (fun b => f a b) bs[i]?
  | [], _, _ => by simp
  | _ :: _, [], i => by simp
  | a :: as, b :: bs, 0 => by simp
  | a :: as, b :: bs, i + 1 => by
    simpa using zipWith_getElem? f as bs i

theorem accum_length (ovals ws : List (Option ℚ)) (g : List String) (w : ℚ) :
    (accum ovals ws g w).length = min ws.length g.length := by
  simp [accum]

theorem numpyAccum_length (ovals : List (Option ℚ)) (g : List String) (w : ℚ)
    (adj : List ℚ) : (numpyAccum ovals g w adj).length = min adj.length g.length := by
  simp [numpyAccum]

theorem pandasFold_length (ovals : List (Option ℚ)) :
    ∀ (groups : List (List String)) (weights : List ℚ) (ws : List (Option ℚ)),
      (∀ g ∈ groups, g.length = ovals.length) → ws.length = ovals.length →
      (pandasFold ovals groups weights ws).length = ovals.length
  | [], _, ws, _, hws => hws
  | _ :: _, [], ws, _, hws => hws
  | g :: gs, w :: wrest, ws, hG, hws => by
    refine pandasFold_length ovals gs wrest _ (fun g' hg' => hG g' (by simp [hg'])) ?_
    rw [accum_length, hws, hG g (by simp)]
    simp

theorem numpyFold_length (ovals : List (Option ℚ)) :
    ∀ (groups : List (List String)) (weights : List ℚ) (adj : List ℚ),
      (∀ g ∈ groups, g.length = ovals.length) → adj.length = ovals.length →
      (numpyFold ovals groups weights adj).length = ovals.length
  | [], _, adj, _, hadj => hadj
  | _ :: _, [], adj, _, hadj => hadj
  | g :: gs, w :: wrest, adj, hG, hadj => by
    refine numpyFold_length ovals gs wrest _ (fun g' hg' => hG g' (by simp [hg'])) ?_
    rw [numpyAccum_length, hadj, hG g (by simp)]
    simp

theorem exceptMap_ok_iff {ε α β : Type} (f : α → β) (e : Except ε α) (b : β) :
    Except.map f e = .ok b ↔ ∃ a, e = .ok a ∧ f a = b := by
  cases e with
  | ok a => simp [Except.map]
  | error err => simp [Except.map]

/-- When every check passes, the checked pandas loop is the plain fold. -/
theorem pandasLoop_eq_ok (ovals : List (Option ℚ)) :
    ∀ (groups : List (List String)) (weights : List ℚ) (ws : List (Option ℚ)),
      (∀ g ∈ groups, g.length = ovals.length) →
      pandasLoop ovals groups weights ws = .ok (pandasFold ovals groups weights ws)
  | [], _, ws, _ => rfl
  | _ :: _, [], ws, _ => rfl
  | g :: gs, w :: wrest, ws, hG => by
    rw [pandasLoop, pandasFold, if_pos (hG g (by simp))]
    exact pandasLoop_eq_ok ovals gs wrest _ (fun g' hg' => hG g' (by simp [hg']))

/-- If the checked pandas loop succeeds and the weight list is at least as
long as the group list, every group passed its length check. -/
theorem pandasLoop_ok_checks (ovals : List (Option ℚ)) :
    ∀ (groups : List (List String)) (weights : List ℚ) (ws out : List (Option ℚ)),
      groups.length ≤ weights.length →
      pandasLoop ovals groups weights ws = .ok out →
      ∀ g ∈ groups, g.length = ovals.length
  | [], _, _, _, _, _ => by simp
  | g :: gs, [], ws, out, hW, _ => by simp at hW
  | g :: gs, w :: wrest, ws, out, hW, h => by
    rw [pandasLoop] at h
    by_cases hg : g.length = ovals.length
    · rw [if_pos hg] at h
      intro g' hg'
      rcases List.mem_cons.mp hg' with h1 | h1
      · rw [h1]; exact hg
      · exact pandasLoop_ok_checks ovals gs wrest _ out (by simpa using hW) h g' h1
    · rw [if_neg hg] at h
      exact absurd h (by simp)

/-- When every check passes, the checked numpy loop is the plain fold. -/
theorem numpyLoop_eq_ok (ovals : List (Option ℚ)) :
    ∀ (groups : List (List String)) (weights : List ℚ) (adj : List ℚ),
      (∀ g ∈ groups, g.length = ovals.length) →
      numpyLoop ovals groups weights adj = .ok (numpyFold ovals groups weights adj)
  | [], _, adj, _ => rfl
  | _ :: _, [], adj, _ => rfl
  | g :: gs, w :: wrest, adj, hG => by
    rw [numpyLoop, numpyFold, if_pos (hG g (by simp))]
    exact numpyLoop_eq_ok ovals gs wrest _ (fun g' hg' => hG g' (by simp [hg']))

/-- If the numpy loop succeeds, every group had the right length. -/
theorem numpyLoop_ok_checks (ovals : List (Option ℚ)) :
    ∀ (groups : List (List String)) (weights : List ℚ) (adj out : List ℚ),
      groups.length ≤ weights.length →
      numpyLoop ovals groups weights adj = .ok out →
      ∀ g ∈ groups, g.length = ovals.length
  | [], _, _, _, _, _ => by simp
  | g :: gs, [], adj, out, hW, _ => by simp at hW
  | g :: gs, w :: wrest, adj, out, hW, h => by
    rw [numpyLoop] at h
    by_cases hg : g.length = ovals.length
    · rw [if_pos hg] at h
      intro g' hg'
      rcases List.mem_cons.mp hg' with h1 | h1
      · rw [h1]; exact hg
      · exact numpyLoop_ok_checks ovals gs wrest _ out (by simpa using hW) h g' h1
    · rw [if_neg hg] at h
      exact absurd h (by simp)

/-- Success characterisation of the pandas core: it succeeds exactly when both
length checks pass, and the result is the demeaned fold. -/
theorem pandasCore_ok_iff (ovals : List (Option ℚ)) (groups : List (List String))
    (weights : List ℚ) (out : List (Option ℚ)) :
    pandasCore ovals groups weights = .ok out ↔
      groups.length = weights.length ∧ (∀ g ∈ groups, g.length = ovals.length) ∧
      out = List.zipWith optSub ovals
        (pandasFold ovals groups weights (ovals.map fun _ => some 0)) := by
  unfold pandasCore
  by_cases hW : groups.length = weights.length
  · rw [if_pos hW, exceptMap_ok_iff]
    constructor
    · rintro ⟨ws, hloop, hout⟩
      have hG := pandasLoop_ok_checks ovals groups weights _ ws (le_of_eq hW) hloop
      have := pandasLoop_eq_ok ovals groups weights (ovals.map fun _ => some 0) hG
      rw [this] at hloop
      injection hloop with hws
      exact ⟨hW, hG, by rw [← hout, hws]⟩
    · rintro ⟨-, hG, hout⟩
      exact ⟨_, pandasLoop_eq_ok ovals groups weights _ hG, hout.symm⟩
  · rw [if_neg hW]
    simp [hW]

/-- Success characterisation of the numpy backend. -/
theorem numpy_ok_iff (ovals : List (Option ℚ)) (groups : List (List String))
    (weights : List ℚ) (out : List (Option ℚ)) :
    group_adjust_numpy ovals groups weights = .ok out ↔
      groups.length = weights.length ∧ (∀ g ∈ groups, g.length = ovals.length) ∧
      out = List.zipWith (fun v a => v.map (· - a)) ovals
        (numpyFold ovals groups weights (ovals.map fun _ => 0)) := by
  unfold group_adjust_numpy
  by_cases hW : groups.length = weights.length
  · rw [if_pos hW, exceptMap_ok_iff]
    constructor
    · rintro ⟨adj, hloop, hout⟩
      have hG := numpyLoop_ok_checks ovals groups weights _ adj (le_of_eq hW) hloop
      have := numpyLoop_eq_ok ovals groups weights (ovals.map fun _ => 0) hG
      rw [this] at hloop
      injection hloop with hadj
      exact ⟨hW, hG, by rw [← hout, hadj]⟩
    · rintro ⟨-, hG, hout⟩
      exact ⟨_, numpyLoop_eq_ok ovals groups weights _ hG, hout.symm⟩
  · rw [if_neg hW]
    simp [hW]

theorem optSub_none (s : Option ℚ) : optSub none s = none := by
  cases s <;> rfl

/-- If the pandas core succeeds and the coerced value at `p` is missing, the
output at `p` is missing. -/
theorem pandasCore_missing_at (ovals : List (Option ℚ)) (groups : List (List String))
    (weights : List ℚ) (out : List (Option ℚ)) (p : Nat)
    (h : pandasCore ovals groups weights = .ok out) (hp : ovals[p]? = some none) :
    out[p]? = some none := by
  obtain ⟨-, hG, hout⟩ := (pandasCore_ok_iff _ groups weights out).mp h
  have hlt : p < ovals.length := by
    by_contra hge
    rw [List.getElem?_eq_none (by omega)] at hp
    exact Option.noConfusion hp
  have hlen : (pandasFold ovals groups weights
      (ovals.map fun _ => some 0)).length = ovals.length :=
    pandasFold_length _ groups weights _ hG (by simp)
  have hplt : p < (pandasFold ovals groups weights
      (ovals.map fun _ => some 0)).length := by
    rw [hlen]; exact hlt
  rw [hout, zipWith_getElem?, hp, List.getElem?_eq_getElem hplt]
  simp [optSub_none]

/-- If the numpy backend succeeds and the value at `p` is missing, the output
at `p` is missing. -/
theorem numpy_missing_at (ovals : List (Option ℚ)) (groups : List (List String))
    (weights : List ℚ) (out : List (Option ℚ)) (p : Nat)
    (h : group_adjust_numpy ovals groups weights = .ok out) (hp : ovals[p]? = some none) :
    out[p]? = some none := by
  obtain ⟨-, hG, hout⟩ := (numpy_ok_iff ovals groups weights out).mp h
  have hlt : p < ovals.length := by
    by_contra hge
    rw [List.getElem?_eq_none (by omega)] at hp
    exact Option.noConfusion hp
  have hlen : (numpyFold ovals groups weights (ovals.map fun _ => 0)).length =
      ovals.length := numpyFold_length _ groups weights _ hG (by simp)
  have hplt : p < (numpyFold ovals groups weights (ovals.map fun _ => 0)).length := by
    rw [hlen]; exact hlt
  rw [hout, zipWith_getElem?, hp, List.getElem?_eq_getElem hplt]
  simp

/-- C2: on every successful call, a missing input value yields a missing
output value at the same position, regardless of group composition; both for
the default (pandas) implementation and the numpy backend. -/
theorem missing_in_missing_out (vals : List RawVal) (ovals : List (Option ℚ))
    (groups : List (List String)) (weights : List ℚ)
    (outP outN : List (Option ℚ)) (p : Nat) :
    (group_adjust vals groups weights = .ok outP →
      vals[p]? = some RawVal.missing → outP[p]? = some none) ∧
    (group_adjust_numpy ovals groups weights = .ok outN →
      ovals[p]? = some none → outN[p]? = some none) := by
  constructor
  · intro h hp
    refine pandasCore_missing_at (vals.map toNumeric) groups weights outP p h ?_
    rw [List.getElem?_map, hp]; rfl
  · exact numpy_missing_at ovals groups weights outN p

/-- Witness for C2 at `vals = [missing]`, no groups. -/
theorem missing_in_missing_out_witness : ([none] : List (Option ℚ))[0]? = some none :=
  (missing_in_missing_out [RawVal.missing] [none] [] [] [none] [none] 0).1 rfl rfl

/-- C8: every successful call returns a sequence of the same length as
`values`, whose entry at each position `p` is the demeaned value of input
position `p` (`List.zipWith` combines positionwise, preserving order). -/
theorem output_length_order (vals : List RawVal) (groups : List (List String))
    (weights : List ℚ) (out : List (Option ℚ))
    (h : group_adjust vals groups weights = .ok out) :
    out.length = vals.length ∧
    out = List.zipWith optSub (vals.map toNumeric)
      (pandasFold (vals.map toNumeric) groups weights
        ((vals.map toNumeric).map fun _ => some 0)) := by
  obtain ⟨-, hG, hout⟩ := (pandasCore_ok_iff _ groups weights out).mp h
  refine ⟨?_, hout⟩
  have hlen := pandasFold_length (vals.map toNumeric) groups weights
    ((vals.map toNumeric).map fun _ => some 0) hG (by simp)
  rw [hout, List.length_zipWith, hlen]
  simp

/-- Witness for C8 at `vals = [missing]`, one single-label group. -/
theorem output_length_order_witness :
    ([none] : List (Option ℚ)).length = [RawVal.missing].length ∧
    ([none] : List (Option ℚ)) = List.zipWith optSub ([RawVal.missing].map toNumeric)
      (pandasFold ([RawVal.missing].map toNumeric) [["A"]] [1]
        (([RawVal.missing].map toNumeric).map fun _ => some 0)) :=
  output_length_order [RawVal.missing] [["A"]] [1] [none] rfl

/-- C4: whenever the number of weights differs from the number of groups,
every implementation raises the weight-count mismatch error (`ValueError` at
lines 124, 184 and 240), for any contents of the values and the partitions. -/
theorem weight_count_error (vals : List RawVal) (ovals : List (Option ℚ))
    (groups : List (List String)) (weights : List ℚ)
    (h : groups.length ≠ weights.length) :
    group_adjust vals groups weights = .error .weightCount ∧
    group_adjust_polars ovals groups weights = .error .weightCount ∧
    group_adjust_numpy ovals groups weights = .error .weightCount := by
  refine ⟨?_, ?_, ?_⟩
  · simp [group_adjust, group_adjust_pandas, pandasCore, if_neg h]
  · simp [group_adjust_polars, if_neg h]
  · simp [group_adjust_numpy, if_neg h]

/-- Witness for C4 with one group and zero weights. -/
theorem weight_count_error_witness :
    group_adjust [] [["a"]] [] = .error .weightCount ∧
    group_adjust_polars [] [["a"]] [] = .error .weightCount ∧
    group_adjust_numpy [] [["a"]] [] = .error .weightCount :=
  weight_count_error [] [] [["a"]] [] (by decide)

/-- `group_adjust` fails exactly on the two length conditions. -/
theorem adjust_error_char (vals : List RawVal) (groups : List (List String))
    (weights : List ℚ) :
    (∃ e, group_adjust vals groups weights = .error e) ↔
      groups.length ≠ weights.length ∨ ∃ g ∈ groups, g.length ≠ vals.length := by
  constructor
  · rintro ⟨e, he⟩
    by_contra hno
    push_neg at hno
    obtain ⟨hW, hG⟩ := hno
    have hok : group_adjust vals groups weights =
        .ok (List.zipWith optSub (vals.map toNumeric)
          (pandasFold (vals.map toNumeric) groups weights
            ((vals.map toNumeric).map fun _ => some 0))) := by
      exact (pandasCore_ok_iff _ groups weights _).mpr
        ⟨hW, fun g hg => by rw [List.length_map]; exact hG g hg, rfl⟩
    rw [hok] at he
    exact Except.noConfusion he
  · intro h
    cases hr : group_adjust vals groups weights with
    | error e => exact ⟨e, rfl⟩
    | ok out =>
      obtain ⟨hW, hG, -⟩ := (pandasCore_ok_iff _ groups weights out).mp hr
      rcases h with h | ⟨g, hg, hbad⟩
      · exact absurd hW h
      · exact absurd (by simpa using hG g hg) hbad

/-- C5: `group_adjust` fails exactly when the weight count differs from the
group count or some group's length differs from the values' length; no other
input makes it fail, and a failure returns an error with no partial result. -/
theorem error_surface_iff (vals : List RawVal) (groups : List (List String))
    (weights : List ℚ) :
    (∃ e, group_adjust vals groups weights = .error e) ↔
      groups.length ≠ weights.length ∨ ∃ g ∈ groups, g.length ≠ vals.length :=
  adjust_error_char vals groups weights

/-- Witness for C5: a group length mismatch produces an error. -/
theorem error_surface_iff_witness :
    ∃ e, group_adjust [RawVal.num 1] [["a", "b"]] [1] = .error e :=
  (error_surface_iff [RawVal.num 1] [["a", "b"]] [1]).mpr
    (Or.inr ⟨["a", "b"], by simp, by decide⟩)

theorem zipWith_optSub_zero (xs : List (Option ℚ)) :
    List.zipWith optSub xs (xs.map fun _ => some 0) = xs := by
  induction xs with
  | nil => rfl
  | cons x xs ih =>
    show optSub x (some 0) :: List.zipWith optSub xs (xs.map fun _ => some 0) = x :: xs
    rw [ih]
    cases x <;> simp [optSub]

theorem zipWith_sub_zero (xs : List (Option ℚ)) :
    List.zipWith (fun v a => v.map (· - a)) xs (xs.map fun _ => (0 : ℚ)) = xs := by
  induction xs with
  | nil => rfl
  | cons x xs ih =>
    show x.map (· - 0) :: List.zipWith _ xs (xs.map fun _ => (0 : ℚ)) = x :: xs
    rw [ih]
    cases x <;> simp

/-- C10: with zero partitions and zero weights, the default (pandas)
implementation succeeds and returns the values unchanged up to numeric
coercion, and the numpy backend returns them unchanged. -/
theorem zero_groups_identity (vals : List RawVal) (ovals : List (Option ℚ)) :
    group_adjust vals [] [] = .ok (vals.map toNumeric) ∧
    group_adjust_numpy ovals [] [] = .ok ovals := by
  exact ⟨congrArg Except.ok (zipWith_optSub_zero (vals.map toNumeric)),
    congrArg Except.ok (zipWith_sub_zero ovals)⟩

/-- In a partition where every position carries the same label `c`, the values
grouped under `c` are exactly the non-missing values, in order. -/
theorem groupVals_const (c : String) :
    ∀ (g : List String) (ovals : List (Option ℚ)),
      (∀ l ∈ g, l = c) → g.length = ovals.length →
      groupVals ovals g c = ovals.filterMap id
  | [], [], _, _ => rfl
  | [], _ :: _, _, hlen => by simp at hlen
  | _ :: _, [], _, hlen => by simp at hlen
  | l :: g, v :: vs, hg, hlen => by
    have hl : l = c := hg l (by simp)
    have htail := groupVals_const c g vs (fun x hx => hg x (by simp [hx]))
      (by simpa using hlen)
    show List.filterMap _ ((l, v) :: g.zip vs) = _
    rw [List.filterMap_cons]
    simp only [hl, if_pos rfl]
    cases v with
    | none => simpa using htail
    | some a => simpa using htail

/-- C7: with a single partition in which every position carries the same
label and weight list `[1.0]`, each position with a non-missing value is
demeaned by the arithmetic mean of all the non-missing values. -/
theorem single_group_identity (vals : List RawVal) (g : List String) (c : String)
    (_hne : vals ≠ []) (hg : ∀ l ∈ g, l = c) (hlen : g.length = vals.length)
    (p : Nat) (v : ℚ) (hp : (vals.map toNumeric)[p]? = some (some v)) :
    ∃ out, group_adjust vals [g] [1] = .ok out ∧
      out[p]? = some (some (v - pyMean ((vals.map toNumeric).filterMap id))) := by
  have hG : ∀ g' ∈ [g], g'.length = (vals.map toNumeric).length := by
    intro g' hg'
    rw [List.mem_singleton.mp hg', List.length_map]
    exact hlen
  refine ⟨_, (pandasCore_ok_iff (vals.map toNumeric) [g] [1] _).mpr ⟨rfl, hG, rfl⟩, ?_⟩
  have hpl : p < (vals.map toNumeric).length := by
    by_contra hge
    rw [List.getElem?_eq_none (by omega)] at hp
    exact Option.noConfusion hp
  have hfold : pandasFold (vals.map toNumeric) [g] [1]
      ((vals.map toNumeric).map fun _ => some 0) =
      accum (vals.map toNumeric) ((vals.map toNumeric).map fun _ => some 0) g 1 := rfl
  have hws0 : ((vals.map toNumeric).map fun _ => (some 0 : Option ℚ))[p]? =
      some (some 0) := by
    rw [List.getElem?_map, List.getElem?_eq_getElem hpl]
    rfl
  have hgp : p < g.length := by rw [hlen]; simpa using hpl
  have hlab : g[p]? = some c := by
    rw [List.getElem?_eq_getElem hgp]
    exact congrArg some (hg _ (List.getElem_mem hgp))
  have hmean : groupMean (vals.map toNumeric) g c =
      some (pyMean ((vals.map toNumeric).filterMap id)) := by
    rw [groupMean]
    have hxs : groupVals (vals.map toNumeric) g c = (vals.map toNumeric).filterMap id :=
      groupVals_const c g (vals.map toNumeric) hg (by simpa using hlen)
    rw [hxs]
    have hvmem : v ∈ (vals.map toNumeric).filterMap id :=
      List.mem_filterMap.mpr ⟨some v, List.getElem?_mem hp, rfl⟩
    have hnonempty : (vals.map toNumeric).filterMap id ≠ [] := by
      rintro hcon
      rw [hcon] at hvmem
      exact List.not_mem_nil v hvmem
    rw [if_neg (by simpa [List.isEmpty_iff] using hnonempty)]
  rw [hfold, zipWith_getElem?, hp]
  have haccum : (accum (vals.map toNumeric)
      ((vals.map toNumeric).map fun _ => some 0) g 1)[p]? =
      some (some (0 + pyMean ((vals.map toNumeric).filterMap id) * 1)) := by
    rw [accum, zipWith_getElem?, hws0, hlab]
    simp [hmean, optAdd]
  rw [haccum]
  show some (optSub (some v) (some (0 + _ * 1))) = _
  rw [optSub]
  ring_nf

/-- Witness for C7: `vals = [1, 3]`, one constant partition, weight 1. -/
theorem single_group_identity_witness :
    ∃ out, group_adjust [RawVal.num 1, RawVal.num 3] [["a", "a"]] [1] = .ok out ∧
      out[0]? = some (some (1 - pyMean (([RawVal.num 1, RawVal.num 3].map
        toNumeric).filterMap id))) :=
  single_group_identity [RawVal.num 1, RawVal.num 3] ["a", "a"] "a" (by simp)
    (by decide) rfl 0 1 rfl

/-- C9: a non-numeric element of `values` is treated exactly as a missing
value: the whole call behaves as if the element were the missing marker (so it
never contributes to any group mean and no error arises from it), its error
behaviour is still the two length checks alone, and on success the output at
its position is missing. -/
theorem non_numeric_treated_missing (vals : List RawVal)
    (groups : List (List String)) (weights : List ℚ) (p : Nat) (s : String) :
    group_adjust (vals.set p (RawVal.nonNumeric s)) groups weights =
      group_adjust (vals.set p RawVal.missing) groups weights ∧
    ((∃ e, group_adjust (vals.set p (RawVal.nonNumeric s)) groups weights = .error e) ↔
      groups.length ≠ weights.length ∨ ∃ g ∈ groups, g.length ≠ vals.length) ∧
    (∀ out, group_adjust vals groups weights = .ok out →
      vals[p]? = some (RawVal.nonNumeric s) → out[p]? = some none) := by
  refine ⟨?_, ?_, ?_⟩
  · show pandasCore _ groups weights = pandasCore _ groups weights
    congr 1
    rw [List.map_set, List.map_set]
    rfl
  · rw [adjust_error_char]
    simp
  · intro out h hp
    refine pandasCore_missing_at (vals.map toNumeric) groups weights out p h ?_
    rw [List.getElem?_map, hp]; rfl

/-- Witness for C9: a lone unparseable string demeans to missing with no
groups, identically to the missing marker. -/
theorem non_numeric_treated_missing_witness :
    group_adjust [RawVal.nonNumeric "x"] [] [] = group_adjust [RawVal.missing] [] [] ∧
    ([none] : List (Option ℚ))[0]? = some none :=
  ⟨(non_numeric_treated_missing [RawVal.nonNumeric "x"] [] [] 0 "x").1,
    (non_numeric_treated_missing [RawVal.nonNumeric "x"] [] [] 0 "x").2.2 [none] rfl rfl⟩

/-! ### C3: backend equivalence -/

theorem polarsChecks_ok (n : Nat) :
    ∀ groups : List (List String), (∀ g ∈ groups, g.length = n) →
      polarsChecks n groups = .ok ()
  | [], _ => rfl
  | g :: gs, hG => by
    rw [polarsChecks, if_pos (hG g (by simp))]
    exact polarsChecks_ok n gs fun g' hg' => hG g' (by simp [hg'])

/-- Summing the polars weighted-mean columns left to right is the pandas
accumulation fold. -/
theorem polars_fold_eq (ovals : List (Option ℚ)) :
    ∀ (groups : List (List String)) (weights : List ℚ) (ws : List (Option ℚ)),
      (((groups.zip weights).map fun gw => wmColumn ovals gw.1 gw.2).foldl
          (fun acc col => List.zipWith optAdd acc col) ws) =
        pandasFold ovals groups weights ws
  | [], _, ws => rfl
  | _ :: _, [], ws => rfl
  | g :: gs, w :: wrest, ws => by
    show (((g, w) :: gs.zip wrest).map _).foldl _ ws = pandasFold ovals gs wrest (accum ovals ws g w)
    rw [List.map_cons, List.foldl_cons, ← polars_fold_eq ovals gs wrest (accum ovals ws g w)]
    congr 1
    rw [wmColumn, List.zipWith_map_right]
    rfl

theorem mem_groupVals (ovals : List (Option ℚ)) (g : List String) (p : Nat)
    (lab : String) (a : ℚ) (hg : g[p]? = some lab) (hv : ovals[p]? = some (some a)) :
    a ∈ groupVals ovals g lab := by
  have hzip : (g.zip ovals)[p]? = some (lab, some a) := by
    show (List.zipWith Prod.mk g ovals)[p]? = _
    rw [zipWith_getElem?, hg, hv]
    rfl
  exact List.mem_filterMap.mpr ⟨(lab, some a), List.getElem?_mem hzip, by simp⟩

/-- A label that appears at a position with a non-missing value has a defined
group mean. -/
theorem groupMean_defined (ovals : List (Option ℚ)) (g : List String) (p : Nat)
    (lab : String) (a : ℚ) (hg : g[p]? = some lab) (hv : ovals[p]? = some (some a)) :
    groupMean ovals g lab = some (pyMean (groupVals ovals g lab)) := by
  have hmem := mem_groupVals ovals g p lab a hg hv
  have hne : groupVals ovals g lab ≠ [] := by
    rintro hcon
    rw [hcon] at hmem
    exact List.not_mem_nil a hmem
  simp only [groupMean]
  rw [if_neg (by simpa [List.isEmpty_iff] using hne)]

/-- Positions with a non-missing value carry, through the pandas and numpy
aggregation loops, the same accumulated weighted sum. -/
theorem fold_invariant (ovals : List (Option ℚ)) :
    ∀ (groups : List (List String)) (weights : List ℚ)
      (ws : List (Option ℚ)) (adj : List ℚ),
      (∀ g ∈ groups, g.length = ovals.length) →
      (∀ (p : Nat) (a : ℚ), ovals[p]? = some (some a) →
        ∃ b, ws[p]? = some (some b) ∧ adj[p]? = some b) →
      ∀ (p : Nat) (a : ℚ), ovals[p]? = some (some a) →
        ∃ b, (pandasFold ovals groups weights ws)[p]? = some (some b) ∧
          (numpyFold ovals groups weights adj)[p]? = some b
  | [], _, ws, adj, _, hinv => hinv
  | _ :: _, [], ws, adj, _, hinv => hinv
  | g :: gs, w :: wrest, ws, adj, hG, hinv => by
    refine fold_invariant ovals gs wrest (accum ovals ws g w) (numpyAccum ovals g w adj)
      (fun g' hg' => hG g' (by simp [hg'])) ?_
    intro p a hv
    obtain ⟨b, hws, hadj⟩ := hinv p a hv
    have hplt : p < ovals.length := by
      by_contra hge
      rw [List.getElem?_eq_none (by omega)] at hv
      exact Option.noConfusion hv
    have hgp : p < g.length := by rw [hG g (by simp)]; exact hplt
    have hlab : g[p]? = some g[p] := List.getElem?_eq_getElem hgp
    have hmean := groupMean_defined ovals g p g[p] a hlab hv
    refine ⟨b + pyMean (groupVals ovals g g[p]) * w, ?_, ?_⟩
    · show (accum ovals ws g w)[p]? = _
      rw [accum, zipWith_getElem?, hws, hlab]
      simp [hmean, optAdd]
    · show (numpyAccum ovals g w adj)[p]? = _
      rw [numpyAccum, zipWith_getElem?, hadj, hlab]
      simp [hmean]

/-- On valid inputs the numpy backend returns exactly the pandas core's
result (missing positions included). -/
theorem numpy_eq_pandasCore (ovals : List (Option ℚ)) (groups : List (List String))
    (weights : List ℚ) (hW : groups.length = weights.length)
    (hG : ∀ g ∈ groups, g.length = ovals.length) :
    group_adjust_numpy ovals groups weights = pandasCore ovals groups weights := by
  rw [(numpy_ok_iff ovals groups weights _).mpr ⟨hW, hG, rfl⟩,
    (pandasCore_ok_iff ovals groups weights _).mpr ⟨hW, hG, rfl⟩]
  congr 1
  refine List.ext_getElem? fun p => ?_
  rw [zipWith_getElem?, zipWith_getElem?]
  cases hv : ovals[p]? with
  | none => rfl
  | some v =>
    have hplt : p < ovals.length := by
      by_contra hge
      rw [List.getElem?_eq_none (by omega)] at hv
      exact Option.noConfusion hv
    cases v with
    | none =>
      have hlenP : (pandasFold ovals groups weights
          (ovals.map fun _ => some 0)).length = ovals.length :=
        pandasFold_length _ groups weights _ hG (by simp)
      have hlenN : (numpyFold ovals groups weights
          (ovals.map fun _ => 0)).length = ovals.length :=
        numpyFold_length _ groups weights _ hG (by simp)
      rw [List.getElem?_eq_getElem (by rw [hlenN]; exact hplt),
        List.getElem?_eq_getElem (by rw [hlenP]; exact hplt)]
      simp [optSub_none]
    | some a =>
      obtain ⟨b, hws, hadj⟩ := fold_invariant ovals groups weights
        (ovals.map fun _ => some 0) (ovals.map fun _ => 0) hG
        (fun q x hq => ⟨0, by rw [List.getElem?_map, hq]; rfl,
          by rw [List.getElem?_map, hq]; rfl⟩) p a hv
      rw [hws, hadj]
      rfl

/-- On valid inputs with at least one group, the polars backend returns
exactly the pandas core's result. -/
theorem polars_eq_pandasCore (ovals : List (Option ℚ)) (groups : List (List String))
    (weights : List ℚ) (hW : groups.length = weights.length)
    (hG : ∀ g ∈ groups, g.length = ovals.length) (hne : groups ≠ []) :
    group_adjust_polars ovals groups weights = pandasCore ovals groups weights := by
  rw [(pandasCore_ok_iff ovals groups weights _).mpr ⟨hW, hG, rfl⟩,
    group_adjust_polars, if_pos hW, polarsChecks_ok ovals.length groups hG]
  show (if groups.isEmpty then Except.error Err.attrErr else _) = _
  rw [if_neg (by simpa [List.isEmpty_iff] using hne)]
  show Except.ok _ = _
  rw [polars_fold_eq]

/-- C3 (amended): on every valid input with at least one partition, the
pandas, polars and numpy backends return exactly the same result (missing
positions agreeing exactly). -/
theorem backend_equivalence (ovals : List (Option ℚ)) (groups : List (List String))
    (weights : List ℚ) (hW : groups.length = weights.length)
    (hG : ∀ g ∈ groups, g.length = ovals.length) (hne : groups ≠ []) :
    group_adjust_polars ovals groups weights = pandasCore ovals groups weights ∧
    group_adjust_numpy ovals groups weights = pandasCore ovals groups weights :=
  ⟨polars_eq_pandasCore ovals groups weights hW hG hne,
    numpy_eq_pandasCore ovals groups weights hW hG⟩

/-- Counterexample to C3 as stated: on the valid input `vals=[1.0]`,
`partitions=[]`, `weights=[]`, the pandas and numpy backends succeed and
return the values unchanged, but the polars backend fails (Python `sum([])`
is the int `0` and `(0).alias(...)` raises `AttributeError`), so the three
backends do not fail on exactly the same inputs. -/
theorem backend_equivalence_cex :
    pandasCore [some 1] [] [] = .ok [some 1] ∧
    group_adjust_numpy [some 1] [] [] = .ok [some 1] ∧
    group_adjust_polars [some 1] [] [] = .error .attrErr ∧
    group_adjust_polars [some 1] [] [] ≠ pandasCore [some 1] [] [] := by
  have hp : pandasCore [some 1] [] [] = .ok [some 1] :=
    congrArg Except.ok (zipWith_optSub_zero [some 1])
  refine ⟨hp, congrArg Except.ok (zipWith_sub_zero [some 1]), rfl, ?_⟩
  rw [hp]
  intro hcon
  exact Except.noConfusion hcon

/-- Witness for the amended C3 at a concrete valid input. -/
theorem backend_equivalence_witness :
    group_adjust_polars [some 1, none] [["a", "b"]] [2] =
      pandasCore [some 1, none] [["a", "b"]] [2] ∧
    group_adjust_numpy [some 1, none] [["a", "b"]] [2] =
      pandasCore [some 1, none] [["a", "b"]] [2] :=
  backend_equivalence [some 1, none] [["a", "b"]] [2] rfl (by decide) (by decide)

/-! ### C6: order of validation and aggregation

To settle the ordering claim the relevant backends are modelled a second time
as event traces: the sequence of validation checks and per-group aggregations
they perform, in program order. -/

/-- Observable events of a backend run: the top weight-count check (lines
124/184/240), the length check of group `i`, and the aggregation (group-mean
computation and accumulation) of group `i`. -/
inductive Ev where
  | checkWeights
  | checkLen (i : Nat)
  | agg (i : Nat)
deriving DecidableEq

/-- `true` for aggregation events. -/
def isAgg : Ev → Bool
  | .agg _ => true
  | _ => false

/-- Once an aggregation has happened, no further validation may follow if all
validation is performed "before any aggregation". -/
def checksPrecedeAggs : List Ev → Bool
  | [] => true
  | e :: rest => if isAgg e then rest.all isAgg else checksPrecedeAggs rest

/-- The pandas `for i, group in enumerate(groups)` loop trace (lines
131-145): for each group its length check (line 132), then — if it passes —
immediately that group's aggregation (lines 143-145); the loop stops at the
first failing check. -/
def pandasTraceLoop (n : Nat) : List (List String) → Nat → List Ev
  | [], _ => []
  | g :: gs, i =>
    Ev.checkLen i :: (if g.length = n then Ev.agg i :: pandasTraceLoop n gs (i + 1) else [])

/-- The full pandas trace (lines 124-150): weight-count check first, then the
interleaved check/aggregate loop. -/
def pandasTrace (vals : List RawVal) (groups : List (List String))
    (weights : List ℚ) : List Ev :=
  Ev.checkWeights ::
    (if groups.length = weights.length then pandasTraceLoop vals.length groups 0 else [])

/-- The polars length-check loop trace (lines 191-194): all length checks, no
aggregation. -/
def polarsTraceChecks (n : Nat) : List (List String) → Nat → List Ev
  | [], _ => []
  | g :: gs, i =>
    Ev.checkLen i :: (if g.length = n then polarsTraceChecks n gs (i + 1) else [])

/-- The full polars trace (lines 184-207): weight-count check, then all length
checks, then — only if every check passed — all aggregations (lines
197-203). -/
def polarsTrace (ovals : List (Option ℚ)) (groups : List (List String))
    (weights : List ℚ) : List Ev :=
  Ev.checkWeights ::
    (if groups.length = weights.length then
      polarsTraceChecks ovals.length groups 0 ++
        (if groups.all fun g => g.length == ovals.length then
          (List.range groups.length).map Ev.agg
        else [])
    else [])

theorem checksPrecedeAggs_allAgg (as : List Ev) (h : as.all isAgg = true) :
    checksPrecedeAggs as = true := by
  cases as with
  | nil => rfl
  | cons a rest =>
    rw [List.all_cons, Bool.and_eq_true] at h
    rw [checksPrecedeAggs, if_pos h.1]
    exact h.2

theorem checksPrecedeAggs_append (cs : List Ev) (as : List Ev)
    (hcs : ∀ e ∈ cs, isAgg e = false) (has : as.all isAgg = true) :
    checksPrecedeAggs (cs ++ as) = true := by
  induction cs with
  | nil => exact checksPrecedeAggs_allAgg as has
  | cons c cs ih =>
    rw [List.cons_append, checksPrecedeAggs, if_neg (by simp [hcs c (by simp)])]
    exact ih fun e he => hcs e (by simp [he])

theorem polarsTraceChecks_no_agg (n : Nat) :
    ∀ (gs : List (List String)) (i : Nat), ∀ e ∈ polarsTraceChecks n gs i,
      isAgg e = false
  | [], _, e, he => by simp [polarsTraceChecks] at he
  | g :: gs, i, e, he => by
    rw [polarsTraceChecks] at he
    rcases List.mem_cons.mp he with h1 | h1
    · rw [h1]; rfl
    · by_cases hg : g.length = n
      · rw [if_pos hg] at h1
        exact polarsTraceChecks_no_agg n gs (i + 1) e h1
      · rw [if_neg hg] at h1
        exact absurd h1 (List.not_mem_nil e)

theorem pandasTraceLoop_sublist (n : Nat) :
    ∀ (gs : List (List String)) (j i : Nat), Ev.agg i ∈ pandasTraceLoop n gs j →
      [Ev.checkLen i, Ev.agg i].Sublist (pandasTraceLoop n gs j)
  | [], _, i, h => by simp [pandasTraceLoop] at h
  | g :: gs, j, i, h => by
    rw [pandasTraceLoop] at h ⊢
    by_cases hg : g.length = n
    · rw [if_pos hg] at h ⊢
      rcases List.mem_cons.mp h with h1 | h1
      · exact absurd h1 (by simp)
      · rcases List.mem_cons.mp h1 with h2 | h2
        · have hij : i = j := by injection h2
          subst hij
          exact .cons₂ _ (.cons₂ _ (List.nil_sublist _))
        · exact .cons _ (.cons _ (pandasTraceLoop_sublist n gs (j + 1) i h2))
    · rw [if_neg hg] at h ⊢
      rcases List.mem_cons.mp h with h1 | h1
      · exact absurd h1 (by simp)
      · exact absurd h1 (List.not_mem_nil _)

/-- C6 (amended): every backend performs the weight-count check first, and on
inputs where both the weight count and some group length are wrong, the
weight-count mismatch error is the one raised, by all backends.  The polars
backend performs all validation before any aggregation.  The pandas backend,
however, only checks each partition's length immediately before aggregating
that same partition, so earlier partitions are aggregated before later
partitions' length checks. -/
theorem validation_order (vals : List RawVal) (ovals : List (Option ℚ))
    (groups : List (List String)) (weights : List ℚ) :
    (pandasTrace vals groups weights).head? = some Ev.checkWeights ∧
    (polarsTrace ovals groups weights).head? = some Ev.checkWeights ∧
    (groups.length ≠ weights.length →
      group_adjust vals groups weights = .error .weightCount ∧
      group_adjust_polars ovals groups weights = .error .weightCount ∧
      group_adjust_numpy ovals groups weights = .error .weightCount) ∧
    checksPrecedeAggs (polarsTrace ovals groups weights) = true ∧
    (∀ i : Nat, Ev.agg i ∈ pandasTrace vals groups weights →
      [Ev.checkLen i, Ev.agg i].Sublist (pandasTrace vals groups weights)) := by
  refine ⟨rfl, rfl, ?_, ?_, ?_⟩
  · intro h
    refine ⟨?_, ?_, ?_⟩
    · simp [group_adjust, group_adjust_pandas, pandasCore, if_neg h]
    · simp [group_adjust_polars, if_neg h]
    · simp [group_adjust_numpy, if_neg h]
  · rw [polarsTrace, checksPrecedeAggs, if_neg (by simp [isAgg])]
    by_cases hW : groups.length = weights.length
    · rw [if_pos hW]
      refine checksPrecedeAggs_append _ _ (polarsTraceChecks_no_agg ovals.length groups 0) ?_
      by_cases hall : groups.all fun g => g.length == ovals.length
      · rw [if_pos hall]
        simp [List.all_map, isAgg]
      · rw [if_neg hall]
        rfl
    · rw [if_neg hW]
      rfl
  · intro i hi
    rw [pandasTrace] at hi ⊢
    rcases List.mem_cons.mp hi with h1 | h1
    · exact absurd h1 (by simp)
    · by_cases hW : groups.length = weights.length
      · rw [if_pos hW] at h1 ⊢
        exact .cons _ (pandasTraceLoop_sublist vals.length groups 0 i h1)
      · rw [if_neg hW] at h1
        exact absurd h1 (List.not_mem_nil _)

/-- Witness for the amended C6: the combined-mismatch input raises the
weight-count error, and in the pandas trace for a valid input group 0's check
immediately precedes its aggregation. -/
theorem validation_order_witness :
    group_adjust [] [["a"]] [] = .error .weightCount ∧
    [Ev.checkLen 0, Ev.agg 0].Sublist (pandasTrace [RawVal.num 1] [["a"]] [1]) :=
  ⟨((validation_order [] [] [["a"]] []).2.2.1 (by decide)).1,
    (validation_order [RawVal.num 1] [] [["a"]] [1]).2.2.2.2 0 (by decide)⟩

/-- Counterexample to C6 as stated: for `vals=[1,2]`,
`partitions=[["a","a"],["b"]]`, `weights=[1,1]` (matching weight count, second
partition too short), the pandas backend aggregates partition 0 before
checking partition 1's length, so validation is not completed before
aggregation begins; the call still fails with the group-length error. -/
theorem validation_order_cex :
    pandasTrace [RawVal.num 1, RawVal.num 2] [["a", "a"], ["b"]] [1, 1] =
      [Ev.checkWeights, Ev.checkLen 0, Ev.agg 0, Ev.checkLen 1] ∧
    checksPrecedeAggs
      (pandasTrace [RawVal.num 1, RawVal.num 2] [["a", "a"], ["b"]] [1, 1]) = false ∧
    group_adjust [RawVal.num 1, RawVal.num 2] [["a", "a"], ["b"]] [1, 1] =
      .error .groupLen := by
  refine ⟨by decide, by decide, ?_⟩
  rfl

end GroupAdjust

